import Mathlib

/-!
Verification of `use-state-sync` (the `useStateSync` React hook).

This file shallowly embeds the hook's core mechanism:
* `StateRef` — the mutable ref cell `stateRef.current` holding the latest
  requested state and the pending callback;
* the Proxy-based read facade (`proxyGet`, `proxyHas`);
* `setStateEffect` — the update operation (resolve value, write the cell,
  register or clear the callback, request a host commit);
* the host commit-observation step — the `useEffect(..., [state])` body that
  fires the pending callback once, catching its errors, then clears it.
  Per React dependency semantics (and §6 of the design: the post-commit hook
  runs "after each time the host's externally observable value changes"),
  this effect re-runs only when the rendered state changed under reference
  equality, modelled with `DecidableEq`;
* teardown — the cleanup of `useEffect(..., [])` that clears the callback
  when the owning instance is destroyed.

Callbacks are modelled by `Nat` labels together with a behaviour map
`throws : Nat → Option String` saying which callbacks throw (with which
message) when invoked; invocations are recorded in `firedLog` together with
the value a facade read inside the callback would observe (the cell's state
at firing time), and caught errors are recorded in `errorLog`.
-/

namespace UseStateSync

/-- The mutable ref cell `stateRef.current`: latest requested `state` and
the at-most-one pending `callback` (a label; `none` is the cleared slot). -/
structure StateRef (T : Type) where
  state : T
  callback : Option Nat

/-- `stateRef.current.setState(newState)`: unconditional overwrite of `state`. -/
def StateRef.setState {T : Type} (r : StateRef T) (newState : T) : StateRef T :=
  { r with state := newState }

/-- `stateRef.current.setCallback(cb)`: unconditional overwrite of `callback`. -/
def StateRef.setCallback {T : Type} (r : StateRef T) (cb : Option Nat) : StateRef T :=
  { r with callback := cb }

/-- A property key handed to the Proxy traps: either a string key or the
well-known symbol `Symbol.toPrimitive`. -/
inductive PropKey where
  | str (key : String)
  | symToPrimitive
deriving DecidableEq, Repr

/-- What the Proxy `get` trap can return: a zero-argument function yielding a
`T` (the `valueOf` / `Symbol.toPrimitive` hooks), a zero-argument function
yielding a `String` (the `toString` hook), or a plain value. -/
inductive ProxyGetResult (T : Type) where
  | valThunk (f : Unit → T)
  | strThunk (f : Unit → String)
  | plain (v : T)

/-- The Proxy `get` trap of `stateObject`, translated clause for clause:
`valueOf` and `Symbol.toPrimitive` yield `() => stateRef.current.state`,
`toString` yields `() => String(stateRef.current.state)`, and every other
key yields `stateRef.current.state` itself.  `toStr` models JavaScript's
`String(·)` coercion. -/
def proxyGet {T : Type} (toStr : T → String) (r : StateRef T) (prop : PropKey) :
    ProxyGetResult T :=
  if prop = PropKey.str "valueOf" ∨ prop = PropKey.symToPrimitive then
    ProxyGetResult.valThunk (fun _ => r.state)
  else if prop = PropKey.str "toString" then
    ProxyGetResult.strThunk (fun _ => toStr r.state)
  else
    ProxyGetResult.plain r.state

/-- The Proxy `has` trap: reports `true` for every key. -/
def proxyHas {T : Type} (_r : StateRef T) (_prop : PropKey) : Bool :=
  true

/-- The Proxy `ownKeys` trap: reports exactly the key `value`. -/
def proxyOwnKeys {T : Type} (_r : StateRef T) : List String :=
  ["value"]

/-- The facade as seen by an updater function: property lookup through the
Proxy `get` trap. -/
def StateObjectF (T : Type) : Type :=
  PropKey → ProxyGetResult T

/-- The memoized `stateObject` facade over a given cell: lazy read-through of
`stateRef.current.state` at access time. -/
def stateObject {T : Type} (toStr : T → String) (r : StateRef T) : StateObjectF T :=
  fun prop => proxyGet toStr r prop

/-- Reading a string property of the facade and coercing the answer to a
value: a plain result is returned as is, a `valueOf`-style thunk is invoked,
and the string-valued `toString` hook has no `T` result. -/
def facadeRead {T : Type} (toStr : T → String) (r : StateRef T) (key : String) :
    Option T :=
  match proxyGet toStr r (PropKey.str key) with
  | ProxyGetResult.plain v => some v
  | ProxyGetResult.valThunk f => some (f ())
  | ProxyGetResult.strThunk _ => none

/-- Numeric coercion of the facade itself via its `valueOf` hook: fetch the
hook and invoke the returned zero-argument function. -/
def coerceValueOf {T : Type} (toStr : T → String) (r : StateRef T) : Option T :=
  match proxyGet toStr r (PropKey.str "valueOf") with
  | ProxyGetResult.valThunk f => some (f ())
  | _ => none

/-- Primitive coercion of the facade itself via its `Symbol.toPrimitive`
hook: fetch the hook and invoke the returned zero-argument function. -/
def coerceToPrimitive {T : Type} (toStr : T → String) (r : StateRef T) : Option T :=
  match proxyGet toStr r PropKey.symToPrimitive with
  | ProxyGetResult.valThunk f => some (f ())
  | _ => none

/-- String coercion of the facade itself via its `toString` hook: fetch the
hook and invoke the returned zero-argument function. -/
def coerceString {T : Type} (toStr : T → String) (r : StateRef T) : Option String :=
  match proxyGet toStr r (PropKey.str "toString") with
  | ProxyGetResult.strThunk f => some (f ())
  | _ => none

/-- The `callback` argument of `setStateEffect` after type erasure: a
callable (identified by its label), `null`/`undefined` (an absent optional
argument is `undefined`), or any other non-callable value such as a number
or a string. -/
inductive CallbackArg where
  | fn (label : Nat)
  | nullOrUndef
  | other
deriving DecidableEq, Repr

/-- `isValidCallback(value)`: `typeof value === "function"`. -/
def isValidCallback : CallbackArg → Bool
  | CallbackArg.fn _ => true
  | _ => false

/-- The label of a callable callback argument, if any. -/
def CallbackArg.label : CallbackArg → Option Nat
  | CallbackArg.fn l => some l
  | _ => none

/-- The `newState` argument of `setStateEffect`: a direct value, or an
updater function invoked with the current facade (`isFunction` distinguishes
the two).  An updater may throw, modelled by `Except String`. -/
inductive UpdateArg (T : Type) where
  | direct (v : T)
  | updater (f : StateObjectF T → Except String T)

/-- The whole hook instance together with its host-visible bookkeeping:
the ref cell, the host's last rendered (committed) state, the value most
recently handed to the host `setState` since the last render (if any),
the log of callback invocations `(label, cell state at firing time)`, the
log of error messages reported via `console.error`, and whether the owning
instance has been torn down. -/
structure Hook (T : Type) where
  stateRef : StateRef T
  hostState : T
  pendingValue : Option T
  firedLog : List (Nat × T)
  errorLog : List String
  torndown : Bool

/-- The hook state right after mounting `useStateSync(init)`: the cell holds
the initial value, no callback is pending, the host has rendered the initial
value, and no commit is outstanding. -/
def initHook {T : Type} (init : T) : Hook T :=
  { stateRef := { state := init, callback := none }, hostState := init,
    pendingValue := none, firedLog := [], errorLog := [], torndown := false }

/-- Step 1 of `setStateEffect`: `isFunction(newState) ? newState(stateObject)
: newState` — resolve the next value, invoking an updater with the current
facade. -/
def resolveNewState {T : Type} (toStr : T → String) (h : Hook T) :
    UpdateArg T → Except String T
  | UpdateArg.direct v => Except.ok v
  | UpdateArg.updater f => f (stateObject toStr h.stateRef)

/-- `setStateEffect(newState, callback?)`: resolve the next value (an updater
throwing aborts the call before any mutation), write it into the cell with
`setState`, then register the callback if callable, clear it if the argument
is `null`/`undefined`, and otherwise leave the slot untouched; finally hand
the resolved value to the host `setState` (recorded in `pendingValue`). -/
def setStateEffect {T : Type} (toStr : T → String) (h : Hook T)
    (newState : UpdateArg T) (callback : CallbackArg) : Except String (Hook T) :=
  match resolveNewState toStr h newState with
  | Except.error e => Except.error e
  | Except.ok actualNewState =>
      let r1 := h.stateRef.setState actualNewState
      let r2 :=
        if isValidCallback callback then
          r1.setCallback callback.label
        else if callback = CallbackArg.nullOrUndef then
          r1.setCallback none
        else
          r1
      Except.ok { h with stateRef := r2, pendingValue := some actualNewState }

/-- The body of `useEffect(..., [state])`: if a callback is pending, invoke
it inside `try`/`catch`/`finally` — the invocation is logged with the cell
state a facade read inside the callback observes, a thrown error (per the
`throws` behaviour map) is converted to a logged message, and the slot is
cleared unconditionally. -/
def runPendingCallback {T : Type} (throws : Nat → Option String) (h : Hook T) :
    Hook T :=
  match h.stateRef.callback with
  | none => h
  | some l =>
      let h1 := { h with firedLog := h.firedLog ++ [(l, h.stateRef.state)] }
      let h2 :=
        match throws l with
        | some msg => { h1 with errorLog := h1.errorLog ++ [msg] }
        | none => h1
      { h2 with stateRef := h2.stateRef.setCallback none }

/-- A host commit-observation point: if a commit is outstanding, the host
renders the pending value; the `useEffect(..., [state])` body re-runs exactly
when the rendered state changed from the previously rendered one (React
compares dependencies by reference equality, and §6's host contract runs the
post-commit hook "after each time the host's externally observable value
changes"). -/
def commitObserve {T : Type} [DecidableEq T] (throws : Nat → Option String)
    (h : Hook T) : Hook T :=
  match h.pendingValue with
  | none => h
  | some v =>
      let h1 := { h with hostState := v, pendingValue := none }
      if v = h.hostState then h1 else runPendingCallback throws h1

/-- Teardown of the owning instance: the cleanup of `useEffect(..., [])`
clears the pending callback; afterwards the instance processes no further
updates or commit observations. -/
def teardownHook {T : Type} (h : Hook T) : Hook T :=
  { h with stateRef := h.stateRef.setCallback none, torndown := true }

/-- An event in a run of the hook: an `update` call, a host
commit-observation point, or teardown of the owning instance. -/
inductive Event (T : Type) where
  | update (arg : UpdateArg T) (cb : CallbackArg)
  | commitObserve
  | teardown

/-- Whether an event is a commit-observation point. -/
def Event.isCommitObserve {T : Type} : Event T → Bool
  | Event.commitObserve => true
  | _ => false

/-- One event step.  A torn-down instance ignores updates and commit
observations (no effect re-runs after unmount). -/
def step {T : Type} [DecidableEq T] (toStr : T → String)
    (throws : Nat → Option String) (h : Hook T) : Event T → Except String (Hook T)
  | Event.update arg cb =>
      if h.torndown then Except.ok h else setStateEffect toStr h arg cb
  | Event.commitObserve =>
      Except.ok (if h.torndown then h else commitObserve throws h)
  | Event.teardown => Except.ok (teardownHook h)

/-- Run a list of events; an uncaught updater error aborts the run. -/
def run {T : Type} [DecidableEq T] (toStr : T → String)
    (throws : Nat → Option String) : Hook T → List (Event T) → Except String (Hook T)
  | h, [] => Except.ok h
  | h, e :: es =>
      match step toStr throws h e with
      | Except.ok h1 => run toStr throws h1 es
      | Except.error msg => Except.error msg

/-- Run a synchronous burst of `update` calls (no interleaved commit
observation). -/
def runUpdates {T : Type} (toStr : T → String) :
    Hook T → List (UpdateArg T × CallbackArg) → Except String (Hook T)
  | h, [] => Except.ok h
  | h, u :: us =>
      match setStateEffect toStr h u.1 u.2 with
      | Except.ok h1 => runUpdates toStr h1 us
      | Except.error e => Except.error e

/-- The updater `s => s.value + 1` over `Int` state: reads the facade's
`value` key and adds one. -/
def incUpdater : StateObjectF Int → Except String Int := fun s =>
  match s (PropKey.str "value") with
  | ProxyGetResult.plain v => Except.ok (v + 1)
  | _ => Except.error "unexpected facade read"

/-- The callback slot after `setStateEffect`'s callback branch: a callable
registers its label, `null`/`undefined` clears the slot, and anything else
leaves the previous slot in place. -/
def nextCallback (cb : CallbackArg) (old : Option Nat) : Option Nat :=
  match cb with
  | CallbackArg.fn l => some l
  | CallbackArg.nullOrUndef => none
  | CallbackArg.other => old

theorem facadeRead_value {T : Type} (toStr : T → String) (r : StateRef T) :
    facadeRead toStr r "value" = some r.state := rfl

theorem setStateEffect_ok_eq {T : Type} (toStr : T → String) (h : Hook T)
    (a : UpdateArg T) (cb : CallbackArg) (v : T)
    (hres : resolveNewState toStr h a = Except.ok v) :
    setStateEffect toStr h a cb =
      Except.ok { h with
        stateRef := { state := v, callback := nextCallback cb h.stateRef.callback },
        pendingValue := some v } := by
  unfold setStateEffect
  rw [hres]
  cases cb <;>
    simp [isValidCallback, CallbackArg.label, nextCallback, StateRef.setState,
      StateRef.setCallback]

theorem setStateEffect_firedLog {T : Type} (toStr : T → String) (g : Hook T)
    (a : UpdateArg T) (cb : CallbackArg) (g1 : Hook T)
    (hs : setStateEffect toStr g a cb = Except.ok g1) : g1.firedLog = g.firedLog := by
  unfold setStateEffect at hs
  cases hres : resolveNewState toStr g a with
  | error e => rw [hres] at hs; cases hs
  | ok v =>
      rw [hres] at hs
      simp only [Except.ok.injEq] at hs
      rw [← hs]

theorem runUpdates_append {T : Type} (toStr : T → String)
    (xs ys : List (UpdateArg T × CallbackArg)) :
    ∀ h : Hook T, runUpdates toStr h (xs ++ ys) =
      match runUpdates toStr h xs with
      | Except.ok h1 => runUpdates toStr h1 ys
      | Except.error e => Except.error e := by
  induction xs with
  | nil => intro h; rfl
  | cons x xs ih =>
      intro h
      simp only [List.cons_append, runUpdates]
      cases setStateEffect toStr h x.1 x.2 with
      | error e => rfl
      | ok h1 => exact ih h1

theorem run_append {T : Type} [DecidableEq T] (toStr : T → String)
    (throws : Nat → Option String) (xs ys : List (Event T)) :
    ∀ g : Hook T, run toStr throws g (xs ++ ys) =
      match run toStr throws g xs with
      | Except.ok g1 => run toStr throws g1 ys
      | Except.error e => Except.error e := by
  induction xs with
  | nil => intro g; rfl
  | cons e es ih =>
      intro g
      simp only [List.cons_append, run]
      cases step toStr throws g e with
      | error m => rfl
      | ok g1 => exact ih g1

theorem run_no_commit_firedLog {T : Type} [DecidableEq T] (toStr : T → String)
    (throws : Nat → Option String) :
    ∀ (evs : List (Event T)) (g g1 : Hook T),
      (∀ e ∈ evs, Event.isCommitObserve e = false) →
      run toStr throws g evs = Except.ok g1 → g1.firedLog = g.firedLog := by
  intro evs
  induction evs with
  | nil =>
      intro g g1 _ hr
      simp only [run, Except.ok.injEq] at hr
      rw [← hr]
  | cons e es ih =>
      intro g g1 hno hr
      have htail : ∀ e ∈ es, Event.isCommitObserve e = false :=
        fun x hx => hno x (List.mem_cons_of_mem _ hx)
      cases e with
      | update a cb =>
          simp only [run, step] at hr
          by_cases htd : g.torndown
          · rw [if_pos htd] at hr
            exact ih g g1 htail hr
          · rw [if_neg htd] at hr
            cases hs : setStateEffect toStr g a cb with
            | error m => rw [hs] at hr; cases hr
            | ok g2 =>
                rw [hs] at hr
                rw [ih g2 g1 htail hr, setStateEffect_firedLog toStr g a cb g2 hs]
      | commitObserve =>
          have hfalse := hno Event.commitObserve (List.mem_cons_self _ _)
          simp [Event.isCommitObserve] at hfalse
      | teardown =>
          simp only [run, step] at hr
          exact ih (teardownHook g) g1 htail hr

theorem run_after_teardown {T : Type} [DecidableEq T] (toStr : T → String)
    (throws : Nat → Option String) :
    ∀ (evs : List (Event T)) (g g1 : Hook T), g.torndown = true →
      run toStr throws g evs = Except.ok g1 →
      g1.firedLog = g.firedLog ∧ g1.torndown = true ∧
        (g.stateRef.callback = none → g1.stateRef.callback = none) := by
  intro evs
  induction evs with
  | nil =>
      intro g g1 htd hr
      simp only [run, Except.ok.injEq] at hr
      rw [← hr]
      exact ⟨rfl, htd, fun hc => hc⟩
  | cons e es ih =>
      intro g g1 htd hr
      cases e with
      | update a cb =>
          simp only [run, step, htd, if_true] at hr
          exact ih g g1 htd hr
      | commitObserve =>
          simp only [run, step, htd, if_true] at hr
          exact ih g g1 htd hr
      | teardown =>
          simp only [run, step] at hr
          have hres := ih (teardownHook g) g1 rfl hr
          exact ⟨hres.1, hres.2.1, fun _ => hres.2.2 rfl⟩

/-- C1: Read-after-write consistency.  For any synchronous burst of update
calls with no interleaved commit observation (`runUpdates`), after any prefix
`pre` the next (Nth) call — whose resolved value is `v`, the direct value or
the updater's return value — succeeds, and reading the facade's `value` key
immediately afterwards returns exactly `v`, never an earlier value: the
update writes the cell before returning and the facade reads through to the
cell at access time. -/
theorem read_after_write_consistency {T : Type} (toStr : T → String)
    (h0 h : Hook T) (pre : List (UpdateArg T × CallbackArg))
    (a : UpdateArg T) (cb : CallbackArg) (v : T)
    (hpre : runUpdates toStr h0 pre = Except.ok h)
    (hres : resolveNewState toStr h a = Except.ok v) :
    ∃ h1, runUpdates toStr h0 (pre ++ [(a, cb)]) = Except.ok h1 ∧
      facadeRead toStr h1.stateRef "value" = some v ∧
      h1.stateRef.state = v := by
  refine ⟨{ h with
      stateRef := { state := v, callback := nextCallback cb h.stateRef.callback },
      pendingValue := some v }, ?_, facadeRead_value toStr _, rfl⟩
  have happ := runUpdates_append toStr pre [(a, cb)] h0
  rw [hpre] at happ
  rw [happ]
  simp only [runUpdates, setStateEffect_ok_eq toStr h a cb v hres]

theorem read_after_write_witness :
    ∃ h1, runUpdates toString (initHook (0 : Int))
        ([(UpdateArg.direct 1, CallbackArg.nullOrUndef)] ++
          [(UpdateArg.direct 2, CallbackArg.nullOrUndef)]) = Except.ok h1 ∧
      facadeRead toString h1.stateRef "value" = some 2 ∧
      h1.stateRef.state = 2 :=
  read_after_write_consistency toString (initHook (0 : Int))
    { stateRef := { state := 1, callback := none }, hostState := 0,
      pendingValue := some 1, firedLog := [], errorLog := [], torndown := false }
    [(UpdateArg.direct 1, CallbackArg.nullOrUndef)]
    (UpdateArg.direct 2) CallbackArg.nullOrUndef 2 rfl rfl

/-- C2: an updater is invoked with the current facade as its sole argument
and observes the value written by the immediately preceding update of the
same synchronous burst: two `s => s.value + 1` updates in one burst leave
the facade reading the start value plus 2 (e.g. from 5 to 7, not 6). -/
theorem updater_sees_latest_value (h : Hook Int) (cb1 cb2 : CallbackArg) :
    ∃ h1, runUpdates toString h
        [(UpdateArg.updater incUpdater, cb1), (UpdateArg.updater incUpdater, cb2)] =
        Except.ok h1 ∧
      facadeRead toString h1.stateRef "value" = some (h.stateRef.state + 2) ∧
      h1.stateRef.state = h.stateRef.state + 2 := by
  have hres1 : resolveNewState toString h (UpdateArg.updater incUpdater) =
      Except.ok (h.stateRef.state + 1) := rfl
  have h1eq := setStateEffect_ok_eq toString h (UpdateArg.updater incUpdater) cb1
    (h.stateRef.state + 1) hres1
  have hres2 : resolveNewState toString
      { h with
        stateRef := { state := h.stateRef.state + 1,
                      callback := nextCallback cb1 h.stateRef.callback },
        pendingValue := some (h.stateRef.state + 1) }
      (UpdateArg.updater incUpdater) = Except.ok (h.stateRef.state + 1 + 1) := rfl
  have h2eq := setStateEffect_ok_eq toString
    { h with
      stateRef := { state := h.stateRef.state + 1,
                    callback := nextCallback cb1 h.stateRef.callback },
      pendingValue := some (h.stateRef.state + 1) }
    (UpdateArg.updater incUpdater) cb2 (h.stateRef.state + 1 + 1) hres2
  refine ⟨{ h with
            stateRef := { state := h.stateRef.state + 1 + 1,
                          callback := nextCallback cb2
                            (nextCallback cb1 h.stateRef.callback) },
            pendingValue := some (h.stateRef.state + 1 + 1) }, ?_, ?_, ?_⟩
  · simp only [runUpdates, h1eq, h2eq]
  · show some (h.stateRef.state + 1 + 1) = some (h.stateRef.state + 2)
    simp only [Option.some.injEq]
    omega
  · show h.stateRef.state + 1 + 1 = h.stateRef.state + 2
    omega

/-- C3 counterexample: starting from a mounted hook whose committed host
state is `10`, calling `update(10, cb)` — a value equal to the currently
committed one — and then passing two host commit-observation points fires no
callback at all (`firedLog` stays empty) and leaves the callback registered:
the `useEffect(..., [state])` hook only re-runs when the rendered state
changes, so the dependency equality check does suppress this callback,
contradicting the claim that `cb` runs exactly once for every value. -/
theorem callback_equal_value_never_fires :
    Except.map (fun h => h.firedLog)
      (run toString (fun _ => none) (initHook (10 : Int))
        [Event.update (UpdateArg.direct 10) (CallbackArg.fn 0), Event.commitObserve,
         Event.commitObserve]) = Except.ok [] ∧
    Except.map (fun h => h.stateRef.callback)
      (run toString (fun _ => none) (initHook (10 : Int))
        [Event.update (UpdateArg.direct 10) (CallbackArg.fn 0), Event.commitObserve,
         Event.commitObserve]) = Except.ok (some 0) :=
  ⟨rfl, rfl⟩

/-- C3 (amended): provided the update's committed value differs from the
host's previously rendered value — so that a commit observation actually
re-runs the post-commit hook — `update(v, cb)` followed by the commit
observation fires `cb` exactly once (one `firedLog` entry, slot cleared, and
a further commit observation changes nothing), and a facade read inside the
callback returns the latest locally committed value `v`. -/
theorem callback_fires_once_after_commit {T : Type} [DecidableEq T]
    (toStr : T → String) (throws : Nat → Option String) (h : Hook T) (v : T)
    (l : Nat) (hne : v ≠ h.hostState) (ht : h.torndown = false)
    (hthr : throws l = none) :
    ∃ h1, run toStr throws h
        [Event.update (UpdateArg.direct v) (CallbackArg.fn l), Event.commitObserve] =
        Except.ok h1 ∧
      h1.firedLog = h.firedLog ++ [(l, v)] ∧
      h1.stateRef.callback = none ∧
      h1.stateRef.state = v ∧
      h1.hostState = v ∧
      facadeRead toStr h1.stateRef "value" = some v ∧
      commitObserve throws h1 = h1 := by
  refine ⟨{ stateRef := { state := v, callback := none }, hostState := v,
            pendingValue := none, firedLog := h.firedLog ++ [(l, v)],
            errorLog := h.errorLog, torndown := h.torndown },
    ?_, rfl, rfl, rfl, rfl, facadeRead_value toStr _, rfl⟩
  simp only [run, step, ht, if_false, Bool.false_eq_true,
    setStateEffect_ok_eq toStr h (UpdateArg.direct v) (CallbackArg.fn l) v rfl]
  simp [commitObserve, runPendingCallback, nextCallback, hne, hthr,
    StateRef.setCallback, ht]

theorem callback_fires_once_witness :
    ∃ h1, run toString (fun _ => none) (initHook (0 : Int))
        [Event.update (UpdateArg.direct 10) (CallbackArg.fn 0), Event.commitObserve] =
        Except.ok h1 ∧
      h1.firedLog = (initHook (0 : Int)).firedLog ++ [(0, 10)] ∧
      h1.stateRef.callback = none ∧
      h1.stateRef.state = 10 ∧
      h1.hostState = 10 ∧
      facadeRead toString h1.stateRef "value" = some 10 ∧
      commitObserve (fun _ => none) h1 = h1 :=
  callback_fires_once_after_commit toString (fun _ => none) (initHook 0) 10 0
    (by decide) rfl rfl

/-- C4: last-callback-wins, not a queue.  The pending slot is an
`Option Nat`, so at most one callback is ever live.  Issuing
`update(v1, cbA)` then `update(v2, cbB)` before any commit observation makes
only `cbB` run at the observation point (`cbA` is never in the fired log),
and an update whose callback argument is `null`/`undefined`/absent clears
any previously registered pending callback. -/
theorem last_callback_wins {T : Type} [DecidableEq T] (toStr : T → String)
    (throws : Nat → Option String) (h g : Hook T) (v1 v2 w : T) (lA lB : Nat)
    (hne : v2 ≠ h.hostState) (ht : h.torndown = false)
    (hthr : throws lB = none)
    (hA : ∀ x : T, (lA, x) ∉ h.firedLog) (hAB : lA ≠ lB) :
    (∃ h1, run toStr throws h
        [Event.update (UpdateArg.direct v1) (CallbackArg.fn lA),
         Event.update (UpdateArg.direct v2) (CallbackArg.fn lB),
         Event.commitObserve] = Except.ok h1 ∧
      h1.firedLog = h.firedLog ++ [(lB, v2)] ∧
      (∀ x : T, (lA, x) ∉ h1.firedLog)) ∧
    (∃ g1, setStateEffect toStr g (UpdateArg.direct w) CallbackArg.nullOrUndef =
        Except.ok g1 ∧ g1.stateRef.callback = none) := by
  constructor
  · refine ⟨{ h with
              stateRef := { state := v2, callback := none },
              hostState := v2, pendingValue := none,
              firedLog := h.firedLog ++ [(lB, v2)] }, ?_, rfl, ?_⟩
    · simp [run, step, setStateEffect, resolveNewState, isValidCallback,
        CallbackArg.label, StateRef.setState, StateRef.setCallback,
        commitObserve, runPendingCallback, ht, hne, hthr]
    · intro x hx
      rcases List.mem_append.mp hx with hmem | hone
      · exact hA x hmem
      · rcases List.mem_singleton.mp hone with heq
        exact hAB (congrArg Prod.fst heq)
  · exact ⟨_, setStateEffect_ok_eq toStr g (UpdateArg.direct w)
      CallbackArg.nullOrUndef w rfl, rfl⟩

theorem last_callback_wins_witness :
    (∃ h1, run toString (fun _ => none) (initHook (0 : Int))
        [Event.update (UpdateArg.direct 1) (CallbackArg.fn 1),
         Event.update (UpdateArg.direct 2) (CallbackArg.fn 2),
         Event.commitObserve] = Except.ok h1 ∧
      h1.firedLog = (initHook (0 : Int)).firedLog ++ [(2, 2)] ∧
      (∀ x : Int, (1, x) ∉ h1.firedLog)) ∧
    (∃ g1, setStateEffect toString (initHook (0 : Int)) (UpdateArg.direct 3)
        CallbackArg.nullOrUndef = Except.ok g1 ∧ g1.stateRef.callback = none) :=
  last_callback_wins toString (fun _ => none) (initHook 0) (initHook 0) 1 2 3 1 2
    (by decide) rfl rfl (by simp [initHook]) (by decide)

/-- C5: callback errors are contained.  At a commit-observation point where
the pending callback fires, the firing site is a `try`/`catch`/`finally`:
with a throwing callback (behaviour `throws l = some msg`) the error is
converted to a logged message and the host commit cycle still completes
(`commitObserve` is total — no error escapes — and the host state and
pending-commit bookkeeping are updated exactly as in the non-throwing case);
the pending slot is cleared unconditionally, both for the throwing behaviour
and for a non-throwing one. -/
theorem callback_error_contained {T : Type} [DecidableEq T]
    (throws throwsOk : Nat → Option String) (h : Hook T) (l : Nat) (v : T)
    (msg : String)
    (hcb : h.stateRef.callback = some l) (hp : h.pendingValue = some v)
    (hne : v ≠ h.hostState) (hm : throws l = some msg) (hok : throwsOk l = none) :
    (commitObserve throws h).stateRef.callback = none ∧
    (commitObserve throws h).errorLog = h.errorLog ++ [msg] ∧
    (commitObserve throws h).firedLog = h.firedLog ++ [(l, h.stateRef.state)] ∧
    (commitObserve throws h).hostState = v ∧
    (commitObserve throws h).pendingValue = none ∧
    (commitObserve throwsOk h).stateRef.callback = none ∧
    (commitObserve throwsOk h).errorLog = h.errorLog ∧
    (commitObserve throwsOk h).firedLog = h.firedLog ++ [(l, h.stateRef.state)] := by
  simp [commitObserve, runPendingCallback, hp, hne, hcb, hm, hok,
    StateRef.setCallback]

theorem callback_error_contained_witness :
    (commitObserve (fun _ => some "boom")
        ({ stateRef := { state := 1, callback := some 0 }, hostState := 0,
           pendingValue := some 1, firedLog := [], errorLog := [],
           torndown := false } : Hook Int)).stateRef.callback = none ∧
    (commitObserve (fun _ => some "boom")
        ({ stateRef := { state := 1, callback := some 0 }, hostState := 0,
           pendingValue := some 1, firedLog := [], errorLog := [],
           torndown := false } : Hook Int)).errorLog = [] ++ ["boom"] ∧
    (commitObserve (fun _ => some "boom")
        ({ stateRef := { state := 1, callback := some 0 }, hostState := 0,
           pendingValue := some 1, firedLog := [], errorLog := [],
           torndown := false } : Hook Int)).firedLog = [] ++ [(0, 1)] ∧
    (commitObserve (fun _ => some "boom")
        ({ stateRef := { state := 1, callback := some 0 }, hostState := 0,
           pendingValue := some 1, firedLog := [], errorLog := [],
           torndown := false } : Hook Int)).hostState = 1 ∧
    (commitObserve (fun _ => some "boom")
        ({ stateRef := { state := 1, callback := some 0 }, hostState := 0,
           pendingValue := some 1, firedLog := [], errorLog := [],
           torndown := false } : Hook Int)).pendingValue = none ∧
    (commitObserve (fun _ => none)
        ({ stateRef := { state := 1, callback := some 0 }, hostState := 0,
           pendingValue := some 1, firedLog := [], errorLog := [],
           torndown := false } : Hook Int)).stateRef.callback = none ∧
    (commitObserve (fun _ => none)
        ({ stateRef := { state := 1, callback := some 0 }, hostState := 0,
           pendingValue := some 1, firedLog := [], errorLog := [],
           torndown := false } : Hook Int)).errorLog = [] ∧
    (commitObserve (fun _ => none)
        ({ stateRef := { state := 1, callback := some 0 }, hostState := 0,
           pendingValue := some 1, firedLog := [], errorLog := [],
           torndown := false } : Hook Int)).firedLog = [] ++ [(0, 1)] :=
  callback_error_contained (fun _ => some "boom") (fun _ => none)
    ({ stateRef := { state := 1, callback := some 0 }, hostState := 0,
       pendingValue := some 1, firedLog := [], errorLog := [],
       torndown := false } : Hook Int)
    0 1 "boom" rfl rfl (by decide) rfl rfl

/-- C6: updater failure is fail-fast and atomic.  If the updater function
throws during value resolution (step 1 of `setStateEffect`), the error is
not caught: `setStateEffect` returns that very error, producing no updated
hook at all — the cell value is unwritten, the callback slot is neither
registered nor cleared, and no commit has been requested, because in the
source the resolution `newState(stateObject)` runs before any mutation. -/
theorem updater_throw_fail_fast {T : Type} (toStr : T → String) (h : Hook T)
    (f : StateObjectF T → Except String T) (cb : CallbackArg) (e : String)
    (hf : f (stateObject toStr h.stateRef) = Except.error e) :
    setStateEffect toStr h (UpdateArg.updater f) cb = Except.error e := by
  have hres : resolveNewState toStr h (UpdateArg.updater f) = Except.error e := hf
  unfold setStateEffect
  rw [hres]

theorem updater_throw_fail_fast_witness :
    setStateEffect toString (initHook (0 : Int))
      (UpdateArg.updater (fun _ => Except.error "boom")) CallbackArg.nullOrUndef =
      Except.error "boom" :=
  updater_throw_fail_fast toString (initHook 0) (fun _ => Except.error "boom")
    CallbackArg.nullOrUndef "boom" rfl

/-- C7: teardown discards without firing.  If `update(v, cb)` is issued and
the owning instance is torn down before any commit-observation point (the
intervening events contain no commit observation), then no callback ever
fires over the whole trace — including arbitrary events after teardown — and
the pending-callback slot ends cleared: no fire-after-teardown. -/
theorem teardown_discards_pending_callback {T : Type} [DecidableEq T]
    (toStr : T → String) (throws : Nat → Option String) (h h1 : Hook T)
    (v : T) (l : Nat) (mid post : List (Event T))
    (hmid : ∀ e ∈ mid, Event.isCommitObserve e = false)
    (hrun : run toStr throws h
        (Event.update (UpdateArg.direct v) (CallbackArg.fn l) ::
          (mid ++ Event.teardown :: post)) = Except.ok h1) :
    h1.firedLog = h.firedLog ∧ h1.stateRef.callback = none := by
  have hsplit : Event.update (UpdateArg.direct v) (CallbackArg.fn l) ::
      (mid ++ Event.teardown :: post) =
      (Event.update (UpdateArg.direct v) (CallbackArg.fn l) :: mid) ++
        (Event.teardown :: post) := by simp
  rw [hsplit, run_append] at hrun
  cases hx : run toStr throws h
      (Event.update (UpdateArg.direct v) (CallbackArg.fn l) :: mid) with
  | error m => rw [hx] at hrun; cases hrun
  | ok g1 =>
      rw [hx] at hrun
      have hfired1 : g1.firedLog = h.firedLog := by
        refine run_no_commit_firedLog toStr throws _ h g1 ?_ hx
        intro e he
        rcases List.mem_cons.mp he with rfl | hmem
        · rfl
        · exact hmid e hmem
      simp only [run, step] at hrun
      have h2 := run_after_teardown toStr throws post (teardownHook g1) h1 rfl hrun
      refine ⟨?_, h2.2.2 rfl⟩
      calc h1.firedLog = (teardownHook g1).firedLog := h2.1
        _ = g1.firedLog := rfl
        _ = h.firedLog := hfired1

theorem teardown_discards_witness :
    ({ stateRef := { state := 1, callback := none }, hostState := 0,
       pendingValue := some 1, firedLog := [], errorLog := [],
       torndown := true } : Hook Int).firedLog = (initHook (0 : Int)).firedLog ∧
    ({ stateRef := { state := 1, callback := none }, hostState := 0,
       pendingValue := some 1, firedLog := [], errorLog := [],
       torndown := true } : Hook Int).stateRef.callback = none :=
  teardown_discards_pending_callback toString (fun _ => none) (initHook (0 : Int))
    ({ stateRef := { state := 1, callback := none }, hostState := 0,
       pendingValue := some 1, firedLog := [], errorLog := [],
       torndown := true } : Hook Int)
    1 0 [] [Event.commitObserve] (by simp) rfl

/-- C8: coercion equivalence.  At every point of any event run, numeric or
string coercion of the facade object itself — invoking the zero-argument
function returned by its `valueOf` / `Symbol.toPrimitive` / `toString`
hooks, each of which yields the cell's current state — gives the same result
as reading the facade's `value` key (for string coercion, up to the same
`String(·)` conversion applied to that read). -/
theorem coercion_equivalence_along_runs {T : Type} [DecidableEq T]
    (toStr : T → String) (throws : Nat → Option String) (h0 h : Hook T)
    (evs : List (Event T)) (_hrun : run toStr throws h0 evs = Except.ok h) :
    coerceValueOf toStr h.stateRef = facadeRead toStr h.stateRef "value" ∧
    coerceToPrimitive toStr h.stateRef = facadeRead toStr h.stateRef "value" ∧
    coerceString toStr h.stateRef = Option.map toStr (facadeRead toStr h.stateRef "value") :=
  ⟨rfl, rfl, rfl⟩

theorem coercion_equivalence_witness :
    coerceValueOf toString (initHook (5 : Int)).stateRef =
      facadeRead toString (initHook (5 : Int)).stateRef "value" ∧
    coerceToPrimitive toString (initHook (5 : Int)).stateRef =
      facadeRead toString (initHook (5 : Int)).stateRef "value" ∧
    coerceString toString (initHook (5 : Int)).stateRef =
      Option.map toString (facadeRead toString (initHook (5 : Int)).stateRef "value") :=
  coercion_equivalence_along_runs toString (fun _ => none) (initHook (5 : Int))
    (initHook (5 : Int)) [] rfl

/-- C9: permissive uniform access.  For every string key other than the
coercion hooks `valueOf` and `toString` (and other than the symbol key
`Symbol.toPrimitive`, excluded by being a string), the Proxy `get` trap
returns the cell's entire current state verbatim — `value`, `foo` and every
other key alike — and the `has` trap reports `true` for every key. -/
theorem permissive_uniform_access {T : Type} (toStr : T → String) (h : Hook T)
    (k : String) (hk1 : k ≠ "valueOf") (hk2 : k ≠ "toString") :
    proxyGet toStr h.stateRef (PropKey.str k) =
      ProxyGetResult.plain h.stateRef.state ∧
    facadeRead toStr h.stateRef k = some h.stateRef.state ∧
    facadeRead toStr h.stateRef k = facadeRead toStr h.stateRef "value" ∧
    (∀ p : PropKey, proxyHas h.stateRef p = true) := by
  have c1 : ¬(PropKey.str k = PropKey.str "valueOf" ∨
      PropKey.str k = PropKey.symToPrimitive) := by
    simp [hk1]
  have c2 : ¬(PropKey.str k = PropKey.str "toString") := by
    simp [hk2]
  have hget : proxyGet toStr h.stateRef (PropKey.str k) =
      ProxyGetResult.plain h.stateRef.state := by
    unfold proxyGet
    rw [if_neg c1, if_neg c2]
  refine ⟨hget, ?_, ?_, fun p => rfl⟩
  · unfold facadeRead
    rw [hget]
  · rw [facadeRead_value]
    unfold facadeRead
    rw [hget]

theorem permissive_uniform_access_witness :
    proxyGet toString (initHook (5 : Int)).stateRef (PropKey.str "foo") =
      ProxyGetResult.plain (initHook (5 : Int)).stateRef.state ∧
    facadeRead toString (initHook (5 : Int)).stateRef "foo" =
      some (initHook (5 : Int)).stateRef.state ∧
    facadeRead toString (initHook (5 : Int)).stateRef "foo" =
      facadeRead toString (initHook (5 : Int)).stateRef "value" ∧
    (∀ p : PropKey, proxyHas (initHook (5 : Int)).stateRef p = true) :=
  permissive_uniform_access toString (initHook (5 : Int)) "foo"
    (by decide) (by decide)

/-- C10 (implicit): the callback-clearing branch only runs on `null` or
`undefined`.  If `update` is called with a callback argument that is neither
callable nor `null`/`undefined` (e.g. a number or a string, after type
erasure), neither the register branch nor the clear branch runs, so a
previously registered pending callback is left in place — and it still fires
at the next commit observation that re-runs the post-commit hook. -/
theorem stale_callback_on_noncallable_arg {T : Type} [DecidableEq T]
    (toStr : T → String) (throws : Nat → Option String) (h : Hook T)
    (v : T) (l : Nat)
    (hcb : h.stateRef.callback = some l) (hne : v ≠ h.hostState)
    (hthr : throws l = none) :
    ∃ h1, setStateEffect toStr h (UpdateArg.direct v) CallbackArg.other =
        Except.ok h1 ∧
      h1.stateRef.callback = some l ∧
      (commitObserve throws h1).firedLog = h.firedLog ++ [(l, v)] ∧
      (commitObserve throws h1).stateRef.callback = none := by
  refine ⟨{ h with
            stateRef := { state := v,
                          callback := nextCallback CallbackArg.other h.stateRef.callback },
            pendingValue := some v },
    setStateEffect_ok_eq toStr h (UpdateArg.direct v) CallbackArg.other v rfl,
    ?_, ?_, ?_⟩
  · simp [nextCallback, hcb]
  · simp [commitObserve, runPendingCallback, nextCallback, hcb, hne, hthr,
      StateRef.setCallback]
  · simp [commitObserve, runPendingCallback, nextCallback, hcb, hne, hthr,
      StateRef.setCallback]

theorem stale_callback_witness :
    ∃ h1, setStateEffect toString
        ({ stateRef := { state := 0, callback := some 9 }, hostState := 0,
           pendingValue := none, firedLog := [], errorLog := [],
           torndown := false } : Hook Int)
        (UpdateArg.direct 4) CallbackArg.other = Except.ok h1 ∧
      h1.stateRef.callback = some 9 ∧
      (commitObserve (fun _ => none) h1).firedLog = [] ++ [(9, 4)] ∧
      (commitObserve (fun _ => none) h1).stateRef.callback = none :=
  stale_callback_on_noncallable_arg toString (fun _ => none)
    ({ stateRef := { state := 0, callback := some 9 }, hostState := 0,
       pendingValue := none, firedLog := [], errorLog := [],
       torndown := false } : Hook Int)
    4 9 rfl (by decide) rfl

end UseStateSync
